import Mathlib

set_option maxHeartbeats 1000000
set_option maxRecDepth 4000

/-!
Verification development for the code-automation server (`src/server.js`).

The program is embedded shallowly:

* JavaScript values produced by `JSON.parse` become the inductive type `JsVal`;
  `JSON.parse` itself becomes the fuel-indexed recursive-descent parser
  `jsonParse` (fuel is the input length plus one, which bounds the recursion
  depth since every recursive call consumes at least one character).
* The two regular expressions used to extract a JSON candidate from the
  agent's reply are embedded as the functions `codeBlockCapture`
  (for /```json\n([\s\S]+?)\n```/, leftmost match, lazy capture) and
  `plainJsonMatch` (for /\x7b[\s\S]*"action"[\s\S]*\x7d/, leftmost start,
  greedy extent).
* Node's `path.posix.join`/`normalize` become `pathJoin`/`normalizePath`.
* The filesystem is a map `Fs := String → Option String` from resolved paths
  to file contents; `fs.readFile`/`fs.writeFile` become lookups and updates.
* `child_process.exec` is an oracle `ExecEnv := String → ExecOut`: for each
  command string it yields either the command's stdout or the message of the
  error the awaited promise rejects with.  The pipeline threads the list of
  commands it actually issued (its trace).
* The Anthropic API call is an oracle `List Turn → String` from the current
  conversation history to the text of the model's reply.

Unicode-sensitive corners of JavaScript that no theorem below depends on are
approximated and annotated at their definition sites (`\u` escapes decoding
to unpaired surrogates, locale-independent `toLowerCase` beyond ASCII,
canonical re-formatting of numbers by template interpolation, and floating
point underflow of tiny JSON number literals).
-/

/-- JavaScript values as produced by `JSON.parse`.  Numbers keep their source
lexeme: no claim below depends on numeric arithmetic, only on truthiness,
which is recoverable from the lexeme. -/
inductive JsVal where
  | null
  | bool (b : Bool)
  | num (lexeme : String)
  | str (s : String)
  | arr (elts : List JsVal)
  | obj (fields : List (String × JsVal))

/-- JSON whitespace accepted by `JSON.parse`: space, tab, line feed, carriage
return. -/
def jsonWsChar (c : Char) : Bool :=
  c = ' ' || c = '\t' || c = '\n' || c = '\r'

/-- Drop leading JSON whitespace. -/
def skipWs : List Char → List Char
  | [] => []
  | c :: cs => if jsonWsChar c then skipWs cs else c :: cs

/-- Value of a hexadecimal digit, as used by `\u` escapes. -/
def hexDigitVal (c : Char) : Option Nat :=
  if '0' ≤ c ∧ c ≤ '9' then some (c.toNat - '0'.toNat)
  else if 'a' ≤ c ∧ c ≤ 'f' then some (c.toNat - 'a'.toNat + 10)
  else if 'A' ≤ c ∧ c ≤ 'F' then some (c.toNat - 'A'.toNat + 10)
  else none

/-- Decode the four hex digits of a `\uXXXX` escape.  A code unit that is not
a valid Unicode scalar value (an unpaired surrogate in JavaScript) falls back
to `Char.ofNat`'s default; no claim exercises that corner. -/
def parseHex4 : List Char → Option (Char × List Char)
  | a :: b :: c :: d :: rest => do
    let va ← hexDigitVal a
    let vb ← hexDigitVal b
    let vc ← hexDigitVal c
    let vd ← hexDigitVal d
    pure (Char.ofNat (va * 4096 + vb * 256 + vc * 16 + vd), rest)
  | _ => none

/-- Body of a JSON string after the opening quote: characters up to the
closing quote, with the escapes `JSON.parse` accepts; raw control characters
below U+0020 are rejected. -/
def parseStrBody (fuel : Nat) (acc : List Char) (cs : List Char) :
    Option (String × List Char) :=
  match fuel, cs with
  | 0, _ => none
  | _, [] => none
  | fuel + 1, c :: rest =>
    if c = '"' then some (String.mk acc.reverse, rest)
    else if c = '\\' then
      match rest with
      | [] => none
      | e :: rest' =>
        if e = '"' then parseStrBody fuel ('"' :: acc) rest'
        else if e = '\\' then parseStrBody fuel ('\\' :: acc) rest'
        else if e = '/' then parseStrBody fuel ('/' :: acc) rest'
        else if e = 'b' then parseStrBody fuel ('\x08' :: acc) rest'
        else if e = 'f' then parseStrBody fuel ('\x0C' :: acc) rest'
        else if e = 'n' then parseStrBody fuel ('\n' :: acc) rest'
        else if e = 'r' then parseStrBody fuel ('\r' :: acc) rest'
        else if e = 't' then parseStrBody fuel ('\t' :: acc) rest'
        else if e = 'u' then
          match parseHex4 rest' with
          | some (ch, rest'') => parseStrBody fuel (ch :: acc) rest''
          | none => none
        else none
    else if c.toNat < 32 then none
    else parseStrBody fuel (c :: acc) rest

/-- ASCII decimal digit test. -/
def isDigitChar (c : Char) : Bool := '0' ≤ c && c ≤ '9'

/-- Longest leading run of decimal digits. -/
def takeDigits : List Char → List Char × List Char
  | [] => ([], [])
  | c :: cs =>
    if isDigitChar c then
      let (ds, rest) := takeDigits cs
      (c :: ds, rest)
    else ([], c :: cs)

/-- Number literal per the JSON grammar:
`-? (0 | [1-9][0-9]*) (. [0-9]+)? ([eE][+-]?[0-9]+)?`.
Returns the lexeme and the remaining input. -/
def parseNumLexeme (cs : List Char) : Option (List Char × List Char) :=
  let (sign, cs₁) :=
    match cs with
    | '-' :: rest => (['-'], rest)
    | _ => (([] : List Char), cs)
  match cs₁ with
  | [] => none
  | c :: rest =>
    if c = '0' then
      let (fracPart, cs₂) :=
        match rest with
        | '.' :: ds =>
          let (digits, rest') := takeDigits ds
          if digits.isEmpty then (none, rest) else (some ('.' :: digits), rest')
        | _ => (none, rest)
      match fracPart with
      | none =>
        let (expPart, cs₃) :=
          match cs₂ with
          | e :: more =>
            if e = 'e' ∨ e = 'E' then
              let (esign, more') :=
                match more with
                | s :: t => if s = '+' ∨ s = '-' then ([s], t) else (([] : List Char), s :: t)
                | [] => ([], [])
              let (edigits, rest') := takeDigits more'
              if edigits.isEmpty then (none, cs₂) else (some (e :: esign ++ edigits), rest')
            else (none, cs₂)
          | [] => (none, cs₂)
        match expPart with
        | none => some (sign ++ ['0'], cs₃)
        | some ex => some (sign ++ ['0'] ++ ex, cs₃)
      | some fr =>
        let (expPart, cs₃) :=
          match cs₂ with
          | e :: more =>
            if e = 'e' ∨ e = 'E' then
              let (esign, more') :=
                match more with
                | s :: t => if s = '+' ∨ s = '-' then ([s], t) else (([] : List Char), s :: t)
                | [] => ([], [])
              let (edigits, rest') := takeDigits more'
              if edigits.isEmpty then (none, cs₂) else (some (e :: esign ++ edigits), rest')
            else (none, cs₂)
          | [] => (none, cs₂)
        match expPart with
        | none => some (sign ++ ['0'] ++ fr, cs₃)
        | some ex => some (sign ++ ['0'] ++ fr ++ ex, cs₃)
    else if isDigitChar c then
      let (intDigits, cs₁') := takeDigits (c :: rest)
      let (fracPart, cs₂) :=
        match cs₁' with
        | '.' :: ds =>
          let (digits, rest') := takeDigits ds
          if digits.isEmpty then (none, cs₁') else (some ('.' :: digits), rest')
        | _ => (none, cs₁')
      let (expPart, cs₃) :=
        match cs₂ with
        | e :: more =>
          if e = 'e' ∨ e = 'E' then
            let (esign, more') :=
              match more with
              | s :: t => if s = '+' ∨ s = '-' then ([s], t) else (([] : List Char), s :: t)
              | [] => ([], [])
            let (edigits, rest') := takeDigits more'
            if edigits.isEmpty then (none, cs₂) else (some (e :: esign ++ edigits), rest')
          else (none, cs₂)
        | [] => (none, cs₂)
      some (sign ++ intDigits ++ fracPart.getD [] ++ expPart.getD [], cs₃)
    else none

mutual

/-- One JSON value, recursive descent with fuel. -/
def parseVal : Nat → List Char → Option (JsVal × List Char)
  | 0, _ => none
  | fuel + 1, cs =>
    match skipWs cs with
    | 'n' :: 'u' :: 'l' :: 'l' :: rest => some (.null, rest)
    | 't' :: 'r' :: 'u' :: 'e' :: rest => some (.bool true, rest)
    | 'f' :: 'a' :: 'l' :: 's' :: 'e' :: rest => some (.bool false, rest)
    | '"' :: rest =>
      match parseStrBody (rest.length + 1) [] rest with
      | some (s, rest') => some (.str s, rest')
      | none => none
    | '[' :: rest =>
      (match skipWs rest with
       | ']' :: rest' => some (.arr [], rest')
       | other =>
         match parseArrElems fuel other with
         | some (elts, rest') => some (.arr elts, rest')
         | none => none)
    | '{' :: rest =>
      (match skipWs rest with
       | '}' :: rest' => some (.obj [], rest')
       | other =>
         match parseObjFields fuel other with
         | some (fields, rest') => some (.obj fields, rest')
         | none => none)
    | other =>
      match parseNumLexeme other with
      | some (lex, rest) => some (.num (String.mk lex), rest)
      | none => none

/-- Array elements after the opening bracket (nonempty case): value, then
either a comma and more elements or the closing bracket. -/
def parseArrElems : Nat → List Char → Option (List JsVal × List Char)
  | 0, _ => none
  | fuel + 1, cs =>
    match parseVal fuel cs with
    | none => none
    | some (v, rest) =>
      match skipWs rest with
      | ',' :: rest' =>
        match parseArrElems fuel rest' with
        | some (vs, rest'') => some (v :: vs, rest'')
        | none => none
      | ']' :: rest' => some ([v], rest')
      | _ => none

/-- Object members after the opening brace (nonempty case): quoted key,
colon, value, then either a comma and more members or the closing brace. -/
def parseObjFields : Nat → List Char → Option (List (String × JsVal) × List Char)
  | 0, _ => none
  | fuel + 1, cs =>
    match skipWs cs with
    | '"' :: rest =>
      (match parseStrBody (rest.length + 1) [] rest with
       | none => none
       | some (key, rest₁) =>
         match skipWs rest₁ with
         | ':' :: rest₂ =>
           (match parseVal fuel rest₂ with
            | none => none
            | some (v, rest₃) =>
              match skipWs rest₃ with
              | ',' :: rest₄ =>
                (match parseObjFields fuel rest₄ with
                 | some (fields, rest₅) => some ((key, v) :: fields, rest₅)
                 | none => none)
              | '}' :: rest₄ => some ([(key, v)], rest₄)
              | _ => none)
         | _ => none)
    | _ => none

end

/-- `JSON.parse`: one value, surrounding whitespace allowed, nothing after. -/
def jsonParse (s : String) : Option JsVal :=
  let cs := s.toList
  match parseVal (cs.length + 1) cs with
  | some (v, rest) => if (skipWs rest).isEmpty then some v else none
  | none => none

/-- JavaScript truthiness of the numeric value of a JSON number lexeme: the
value is falsy exactly when it is (plus or minus) zero, i.e. when every digit
of the mantissa (the part before any exponent marker) is `0`.  Floating point
underflow of astronomically small nonzero literals is not modelled. -/
def numLexemeIsZero (lex : String) : Bool :=
  (lex.toList.takeWhile (fun c => c ≠ 'e' ∧ c ≠ 'E')).all
    (fun c => !isDigitChar c || c = '0')

/-- JavaScript truthiness of a parsed JSON value. -/
def jsTruthy : JsVal → Bool
  | .null => false
  | .bool b => b
  | .num lex => !numLexemeIsZero lex
  | .str s => !s.toList.isEmpty
  | .arr _ => true
  | .obj _ => true

/-- Truthiness of a possibly-`undefined` JavaScript value (`none` plays
`undefined`). -/
def jsTruthyOpt : Option JsVal → Bool
  | none => false
  | some v => jsTruthy v

/-- Property access `v[key]` on a parsed JSON value: the last binding wins
(as with `JSON.parse`, later duplicate keys overwrite earlier ones); access
on a non-object yields `undefined`. -/
def jsGetField (v : JsVal) (key : String) : Option JsVal :=
  match v with
  | .obj fields => (fields.filter (fun f => f.1 = key)).getLast?.map (·.2)
  | _ => none

mutual

/-- Template-literal interpolation `String(v)` of a parsed JSON value.
Numbers are rendered by their source lexeme (JavaScript's canonical number
formatting, e.g. trimming of trailing zeros, is not reproduced; no claim
interpolates a number). -/
def jsValToString : JsVal → String
  | .null => "null"
  | .bool b => if b then "true" else "false"
  | .num lex => lex
  | .str s => s
  | .arr elts => String.intercalate "," (jsValListToString elts)
  | .obj _ => "[object Object]"

/-- Elements of an array under `Array.prototype.join`: `null` (and
`undefined`) become the empty string. -/
def jsValListToString : List JsVal → List String
  | [] => []
  | .null :: rest => "" :: jsValListToString rest
  | v :: rest => jsValToString v :: jsValListToString rest

end

/-- Interpolation of a possibly-`undefined` value, as in the backtick
templates of the source. -/
def jsToString : Option JsVal → String
  | none => "undefined"
  | some v => jsValToString v

/-- Does the discriminator value name one of the three actions the loop
dispatches on (`complete`, `read_file`, `write_file`)?  Strict equality
`===` against a string literal succeeds only on strings. -/
def isKnownAction : JsVal → Bool
  | .str s => s = "complete" || s = "read_file" || s = "write_file"
  | _ => false

/-- Least offset at which `needle` occurs in `hay` (as a contiguous
sublist), the embedding of leftmost regex/`indexOf`-style search. -/
def findSubstrIdx (needle : List Char) : List Char → Option Nat
  | [] => if needle.isPrefixOf [] then some 0 else none
  | c :: t =>
    if needle.isPrefixOf (c :: t) then some 0
    else (findSubstrIdx needle t).map (· + 1)

/-- Opening fence of regex pattern 1, the eight characters of "```json\n". -/
def fenceOpen : List Char := "```json\n".toList

/-- Closing fence of regex pattern 1, the four characters of "\n```". -/
def fenceClose : List Char := "\n```".toList

/-- Capture group of `content.match(/```json\n([\s\S]+?)\n```/)`.
The leftmost occurrence of the opening fence is the match start: a later
occurrence cannot succeed where the first fails, because the closing fence
would have to occur even further right.  The lazy `+?` makes the capture the
shortest nonempty prefix of the remainder that is followed by the closing
fence. -/
def codeBlockCapture (cs : List Char) : Option (List Char) :=
  match findSubstrIdx fenceOpen cs with
  | none => none
  | some i =>
    let afterOpen := cs.drop (i + 8)
    match findSubstrIdx fenceClose (afterOpen.drop 1) with
    | none => none
    | some k => some (afterOpen.take (k + 1))

/-- The eight characters of the discriminator needle `"action"` (with its
quotes) from regex pattern 2. -/
def actionNeedle : List Char := "\"action\"".toList

/-- Match of `content.match(/\x7b[\s\S]*"action"[\s\S]*\x7d/)`.
The match starts at the first `\x7b` of the input (feasibility is
anti-monotone in the start position, so if the first brace allows no match,
none does).  Backtracking of the first greedy star selects the last
occurrence of `"action"` that still has a closing brace at least eight
characters later; the second greedy star then extends the match to the last
such closing brace. -/
def plainJsonMatch (cs : List Char) : Option (List Char) :=
  match findSubstrIdx ("\x7b".toList) cs with
  | none => none
  | some p =>
    let closes := (List.range cs.length).filter
      (fun r => ("\x7d".toList).isPrefixOf (cs.drop r))
    let qs := (List.range cs.length).filter
      (fun q => decide (p + 1 ≤ q) && actionNeedle.isPrefixOf (cs.drop q) &&
        closes.any (fun r => decide (q + 8 ≤ r)))
    match qs.max? with
    | none => none
    | some q =>
      match (closes.filter (fun r => decide (q + 8 ≤ r))).max? with
      | none => none
      | some r => some ((cs.drop p).take (r + 1 - p))

/-- JSON-candidate extraction from the agent's raw reply (the two-pattern
cascade of the source).  The check `if (!jsonStr)` that would let an empty
pattern-1 capture fall through to pattern 2 is vacuous, since the lazy `+?`
capture is nonempty by construction. -/
def extractJsonStr (content : String) : Option String :=
  let cs := content.toList
  match codeBlockCapture cs with
  | some cap => some (String.mk cap)
  | none =>
    match plainJsonMatch cs with
    | some m => some (String.mk m)
    | none => none

/-- Decoded action of one agent reply: `none` is the thrown-and-caught path
(`No JSON found`, or `JSON.parse` raising a `SyntaxError`), `some v` is the
parsed `action` value. -/
def extractAction (content : String) : Option JsVal :=
  match extractJsonStr content with
  | none => none
  | some s => jsonParse s

/-- Split on `/` separators (segments may be empty, as in
`"a//b".split`). -/
def splitSegs : List Char → List (List Char)
  | [] => [[]]
  | c :: rest =>
    if c = '/' then [] :: splitSegs rest
    else
      match splitSegs rest with
      | s :: ss => (c :: s) :: ss
      | [] => [[c]]

/-- Segments `normalizeString` drops outright: empty ones and `.`. -/
def skipSeg (seg : List Char) : Bool := seg.isEmpty || seg = ['.']

/-- One step of Node's `normalizeString`: empty segments and `.` are
dropped; `..` pops the previous segment unless there is none or it is itself
a kept `..`, in which case it is kept exactly when ascending above the root
is allowed (relative paths).  The accumulating stack is kept reversed (head
is the most recent segment). -/
def normStep (allowAbove : Bool) (stack : List (List Char)) (seg : List Char) :
    List (List Char) :=
  if skipSeg seg then stack
  else if seg = ['.', '.'] then
    match stack with
    | [] => if allowAbove then [['.', '.']] else []
    | top :: rest =>
      if top = ['.', '.'] then
        if allowAbove then ['.', '.'] :: stack else stack
      else rest
  else seg :: stack

/-- Normalized segment stack of a split path, in order. -/
def normSegs (allowAbove : Bool) (segs : List (List Char)) : List (List Char) :=
  (segs.foldl (normStep allowAbove) []).reverse

/-- Render a segment stack with `/` separators. -/
def renderSegs : List (List Char) → String
  | [] => ""
  | [s] => String.mk s
  | s :: rest => String.mk s ++ "/" ++ renderSegs rest

/-- Does the path start with a separator (Node's `isAbsolute` for posix)? -/
def isAbsPath (s : String) : Bool := s.toList.head? = some '/'

/-- Node's `path.posix.normalize`. -/
def normalizePath (s : String) : String :=
  if s = "" then "."
  else
    let cs := s.toList
    let isAbs := isAbsPath s
    let trailingSep := cs.getLast? = some '/'
    let segs := normSegs (!isAbs) (splitSegs cs)
    if segs.isEmpty then
      if isAbs then "/" else if trailingSep then "./" else "."
    else
      (if isAbs then "/" ++ renderSegs segs else renderSegs segs) ++
        (if trailingSep then "/" else "")

/-- Node's `path.posix.join` for the two-argument calls of the source:
empty arguments are dropped, the rest are joined with `/` and normalized;
with no nonempty argument the result is `.`. -/
def pathJoin (a b : String) : String :=
  if a = "" && b = "" then "."
  else if a = "" then normalizePath b
  else if b = "" then normalizePath a
  else normalizePath (a ++ "/" ++ b)

/-- Normalized segment stack of a path string, with ascent above the root
allowed exactly for relative paths (as inside `normalizePath`). -/
def pathStack (s : String) : List (List Char) :=
  normSegs (!isAbsPath s) (splitSegs s.toList)

/-- Segment stack of the resolution `path.join(workspaceDir, filePath)` in
the nondegenerate case (both arguments nonempty), i.e. the stack that
`normalizePath (workspaceDir ++ "/" ++ filePath)` renders. -/
def resolveStack (workspaceDir filePath : String) : List (List Char) :=
  normSegs (!isAbsPath (workspaceDir ++ "/" ++ filePath))
    (splitSegs (workspaceDir ++ "/" ++ filePath).toList)

/-- The filesystem: contents of the file at each (resolved) path, `none`
where reading fails (no such file, or a directory). -/
def Fs : Type := String → Option String

/-- Embedding of the source's `readFile(filePath, workspaceDir)`: resolve
via `path.join` and read; every error (including `path.join` throwing on a
non-string, handled separately in the loop) returns `null`. -/
def readFile (fs : Fs) (filePath workspaceDir : String) : Option String :=
  fs (pathJoin workspaceDir filePath)

/-- Embedding of the source's `writeFile(filePath, content, workspaceDir)`:
resolve via `path.join`, create missing parents (implicit in the map model)
and write. -/
def writeFile (fs : Fs) (filePath content workspaceDir : String) : Fs :=
  fun p => if p = pathJoin workspaceDir filePath then some content else fs p

/-- A directory entry as yielded by `fs.readdir(dir, \x7bwithFileTypes: true\x7d)`:
a plain file or a subdirectory with its own listing, in readdir order. -/
inductive FsEntry where
  | file (name : String)
  | dir (name : String) (children : List FsEntry)

/-- Name of a directory entry (`file.name`). -/
def entryName : FsEntry → String
  | .file n => n
  | .dir n _ => n

/-- The test `name.startsWith('.')`: a single-ASCII-character prefix test
is exactly a first-character test. -/
def beginsWithDot (n : String) : Bool :=
  match n.toList with
  | '.' :: _ => true
  | _ => false

/-- The skip test of `getFileTree`: entries whose name starts with `.`
(e.g. `.git`) or equals `node_modules` are not rendered and not entered. -/
def skipName (n : String) : Bool :=
  beginsWithDot n || n == "node_modules"

mutual

/-- Embedding of the source's `getFileTree(dir, prefix)`: render the listing
of a directory, one line per kept entry, recursing into kept subdirectories
with the prefix extended by two spaces.  The `relativePath` computed by the
source is dead code (never used in the output) and is omitted. -/
def getFileTree : List FsEntry → String → String
  | [], _ => ""
  | e :: rest, pre =>
    if skipName (entryName e) then getFileTree rest pre
    else renderEntry e pre ++ getFileTree rest pre

/-- One kept entry's contribution to the tree. -/
def renderEntry : FsEntry → String → String
  | .file n, pre => pre ++ "📄 " ++ n ++ "\n"
  | .dir n children, pre =>
    pre ++ "📁 " ++ n ++ "/\n" ++ getFileTree children (pre ++ "  ")

end

mutual

/-- The lines of `getFileTree`, each paired with the name of the entry it
renders, in rendering order (same recursion and skip test as
`getFileTree`). -/
def treeLines : List FsEntry → String → List (String × String)
  | [], _ => []
  | e :: rest, pre =>
    if skipName (entryName e) then treeLines rest pre
    else entryLines e pre ++ treeLines rest pre

/-- The (name, line) pairs a single kept entry contributes. -/
def entryLines : FsEntry → String → List (String × String)
  | .file n, pre => [(n, pre ++ "📄 " ++ n ++ "\n")]
  | .dir n children, pre =>
    (n, pre ++ "📁 " ++ n ++ "/\n") :: treeLines children (pre ++ "  ")

end

/-- Concatenation of the line components of a (name, line) list. -/
def joinLines : List (String × String) → String
  | [] => ""
  | p :: ps => p.2 ++ joinLines ps

/-- An entry name is listed in a directory tree when an entry carrying it is
reachable from the root listing without crossing (or being) a skipped
entry: either a kept entry of the listing itself, or listed inside a kept
subdirectory. -/
inductive Listed : List FsEntry → String → Prop where
  | head (e : FsEntry) (rest : List FsEntry) :
      skipName (entryName e) = false → Listed (e :: rest) (entryName e)
  | inDir (n : String) (children rest : List FsEntry) (m : String) :
      skipName n = false → Listed children m →
      Listed (.dir n children :: rest) m
  | later (e : FsEntry) (rest : List FsEntry) (m : String) :
      Listed rest m → Listed (e :: rest) m

/-- Outcome of one `execPromise` call: the command's stdout, or the message
of the error its promise rejects with. -/
def ExecOut : Type := Except String String

/-- The process-execution oracle: what each git command yields when run with
the process working directory bound to the session's workspace. -/
def ExecEnv : Type := String → ExecOut

/-- A record of the change set (`\x7bfile, action: 'modified'\x7d`). -/
structure ChangeRec where
  file : String
  action : String
deriving DecidableEq, Repr

/-- JavaScript whitespace as stripped by `String.prototype.trim` (the ASCII
part; Unicode spaces not modelled). -/
def isWsChar (c : Char) : Bool :=
  c = ' ' || c = '\t' || c = '\n' || c = '\r' || c = '\x0b' || c = '\x0c'

/-- JavaScript `String.prototype.trim`: strip leading and trailing
whitespace. -/
def jsTrim (s : String) : String :=
  String.mk (((s.toList.dropWhile isWsChar).reverse.dropWhile isWsChar).reverse)

/-- ASCII lowering, the effect of `toLowerCase` on the git error messages
matched here (all ASCII; Unicode case mapping not modelled). -/
def lowerAscii (s : String) : String := String.mk (s.toList.map Char.toLower)

/-- JavaScript `String.prototype.includes`: contiguous-substring test. -/
def strIncludes (hay needle : String) : Bool :=
  (findSubstrIdx needle.toList hay.toList).isSome

/-- The catch block's classification of a git failure: does the lowered
message match one of the known rejection phrasings? -/
def isNonFastForward (msg : String) : Bool :=
  let errorText := lowerAscii msg
  strIncludes errorText "non-fast-forward" ||
  strIncludes errorText "rejected" ||
  strIncludes errorText "failed to push some refs" ||
  strIncludes errorText "behind" ||
  (strIncludes errorText "updates were rejected" && strIncludes errorText "tip")

/-- Modelled from the spec's words, for comparison with the code's
classification: the result \x22carries `canForcePush=true`\x22 exactly when the
error message, case-insensitively, contains one of the phrasings
non-fast-forward / rejected / failed to push some refs / behind, or both
\x22updates were rejected\x22 and \x22tip\x22. -/
def specCanForcePush (msg : String) : Bool :=
  let lowered := lowerAscii msg
  strIncludes lowered "non-fast-forward" ||
  strIncludes lowered "rejected" ||
  strIncludes lowered "failed to push some refs" ||
  strIncludes lowered "behind" ||
  (strIncludes lowered "updates were rejected" && strIncludes lowered "tip")

/-- The synthesized commit message: fixed prefix plus the first 72
characters of the originating request (`prompt.slice(0, 72)`; JavaScript
slices UTF-16 code units, `String.take` Unicode scalars — they agree on the
ASCII prompts considered here). -/
def commitMessage (prompt : String) : String :=
  "AI: " ++ String.mk (prompt.toList.take 72)

/-- The git status command of step 1. -/
def statusCmd : String := "git status --porcelain"

/-- Backslash-escape every double quote (`replace(/"/g, '\\"')`). -/
def escapeQuotes : List Char → List Char
  | [] => []
  | c :: cs =>
    if c = '"' then '\\' :: '"' :: escapeQuotes cs else c :: escapeQuotes cs

/-- The commit command of step 5, with embedded double quotes of the
message backslash-escaped. -/
def commitCmd (prompt : String) : String :=
  "git commit -m \"" ++ String.mk (escapeQuotes (commitMessage prompt).toList) ++ "\""

/-- The result object of `gitCommitAndPushToStaging`; absent JavaScript
fields are `none`. -/
structure GitResult where
  success : Bool
  message : Option String := none
  branch : Option String := none
  commitMessage : Option String := none
  changes : Option (List ChangeRec) := none
  error : Option String := none
  canForcePush : Option Bool := none
  gitError : Option Bool := none
  forcePushed : Option Bool := none
deriving DecidableEq, Repr

/-- The clean-working-tree return object (`No changes detected`). -/
def noChangesResult : GitResult :=
  { success := false, message := some "No changes detected" }

/-- The successful-push return object. -/
def pushedResult (prompt : String) (changes : List ChangeRec) (force : Bool) :
    GitResult :=
  { success := true
    branch := some "staging"
    commitMessage := some (commitMessage prompt)
    changes := some changes
    message := some ((if force then "Force pushed" else "Pushed") ++
      " to staging - check Netlify for deployment")
    forcePushed := some force }

/-- The catch block's return object for a git error. -/
def gitFailResult (msg : String) : GitResult :=
  { success := false
    error := some msg
    canForcePush := some (isNonFastForward msg)
    gitError := some true }

/-- The body of `gitCommitAndPushToStaging`'s try block: the value it
returns, or (`Except.error`) the error that escapes it into the catch
block.  The second component is the ordered list of git commands attempted.
The `process.chdir(originalCwd)` of the finally block is a no-op in this
model: the function never changes the process working directory (every
command is spawned with an explicit `cwd` option), so restoring it cannot
fail and is not modelled. -/
def gitTryBody (env : ExecEnv) (prompt : String) (changes : List ChangeRec)
    (force : Bool) : Except String GitResult × List String :=
  match env statusCmd with
  | .error e => (.error e, [statusCmd])
  | .ok status =>
    if jsTrim status = "" then (.ok noChangesResult, [statusCmd])
    else
      let checkoutStep : Except String Unit × List String :=
        match env "git checkout staging" with
        | .ok _ => (.ok (), ["git checkout staging"])
        | .error _ =>
          match env "git checkout -b staging" with
          | .ok _ => (.ok (), ["git checkout staging", "git checkout -b staging"])
          | .error e₂ =>
            (.error e₂, ["git checkout staging", "git checkout -b staging"])
      match checkoutStep with
      | (.error e, coTrace) => (.error e, statusCmd :: coTrace)
      | (.ok _, coTrace) =>
        let pullTrace : List String :=
          if force then [] else ["git pull origin staging"]
        let preTrace := statusCmd :: coTrace ++ pullTrace
        match env "git add ." with
        | .error e => (.error e, preTrace ++ ["git add ."])
        | .ok _ =>
          match env (commitCmd prompt) with
          | .error e => (.error e, preTrace ++ ["git add .", commitCmd prompt])
          | .ok _ =>
            let pushCommand :=
              if force then "git push --force origin staging"
              else "git push origin staging"
            match env pushCommand with
            | .error e =>
              (.error e, preTrace ++ ["git add .", commitCmd prompt, pushCommand])
            | .ok _ =>
              (.ok (pushedResult prompt changes force),
                preTrace ++ ["git add .", commitCmd prompt, pushCommand])

/-- Embedding of `gitCommitAndPushToStaging(prompt, changes, workspaceDir,
force)`: the try body with its catch handler.  The per-workspace binding of
the commands' working directory is carried by the oracle `env`. -/
def gitCommitAndPushToStaging (env : ExecEnv) (prompt : String)
    (changes : List ChangeRec) (force : Bool) : GitResult × List String :=
  match gitTryBody env prompt changes force with
  | (.ok r, trace) => (r, trace)
  | (.error e, trace) => (gitFailResult e, trace)

/-- Message roles of the conversation. -/
inductive Role where
  | user
  | assistant
deriving DecidableEq, Repr

/-- One message of the conversation history (`\x7brole, content\x7d`). -/
structure Turn where
  role : Role
  content : String
deriving DecidableEq, Repr

/-- The system-prompt template of the `/code` endpoint, instantiated with
the rendered repository tree. -/
def mkSystemPrompt (fileTree : String) : String :=
  "You are an expert software engineer with access to a codebase. You can read and modify files.\n\nCURRENT REPOSITORY STRUCTURE:\n" ++
  fileTree ++
  "\n\nCRITICAL ASSUMPTION: Every user request expects you to make actual code changes unless explicitly stated otherwise (e.g., \"just explain\", \"don\x27t modify\", \"read only\").\n\nMANDATORY WORKFLOW:\n1. Read the relevant files to understand current state\n2. Make the requested changes by writing modified files\n3. Only complete after making actual file modifications\n\nUSER EXPECTATIONS:\n- The user ALWAYS wants code changes made\n- If you think no changes are needed, you\x27re probably wrong - look harder\n- Every prompt should result in at least one file being written\n- If the code already looks correct, improve it, add comments, or optimize it\n\nAvailable actions:\n\nFor reading a file:\n\x7b\n  \"action\": \"read_file\",\n  \"file\": \"path/to/file.js\",\n  \"reason\": \"Need to understand current implementation\"\n\x7d\n\nFor modifying a file (REQUIRED for every request):\n\x7b\n  \"action\": \"write_file\",\n  \"file\": \"path/to/file.js\",\n  \"content\": \"COMPLETE NEW FILE CONTENT WITH CHANGES\"\n\x7d\n\nFor completion (ONLY after writing files):\n\x7b\n  \"action\": \"complete\",\n  \"summary\": \"Specific changes made to which files\"\n\x7d\n\nFAILURE MODE TO AVOID: Never complete without writing files. If you complete without changes, you have failed the user\x27s request.\n\nWORKFLOW: Read files → Write modified files → Complete. No exceptions."

/-- The corrective observation fed back when no action could be decoded. -/
def parseRetryMsg : String :=
  "Please provide a valid JSON response with an action."

/-- The corrective observation fed back on an unknown action name. -/
def unknownActionMsg : String :=
  "Unknown action. Use: read_file, write_file, or complete."

/-- The observation for a failed read (interpolating `action.file`). -/
def readNotFoundMsg (fileV : Option JsVal) : String :=
  "Error: File " ++ jsToString fileV ++ " not found. Try another approach."

/-- The observation carrying a read file's content verbatim. -/
def readContentMsg (file content : String) : String :=
  "File " ++ file ++ " content:\n\n```\n" ++ content ++ "\n```"

/-- The observation confirming a successful write. -/
def writeOkMsg (file : String) : String :=
  "✓ File " ++ file ++
    " has been written successfully. Continue with next action or complete."

/-- Stand-in for the message of the `TypeError` that `path.join` or
`fs.writeFile` raise when `action.file`/`action.content` is not a string;
the exact Node wording is not reproduced (no claim reads it). -/
def writeTypeErrMsg : String :=
  "TypeError: invalid arguments to writeFile"

/-- The per-session inputs of the `/code` endpoint: the agent oracle, the
process-execution oracle, the caller's `skipGit`/`forceGit` flags, the
request text, and `process.env.NETLIFY_STAGING_URL`. -/
structure LoopConfig where
  agent : List Turn → String
  exec : ExecEnv
  skipGit : Bool
  forceGit : Bool
  prompt : String
  netlifyStagingUrl : Option String

/-- The loop's mutable state: conversation history, accumulated change set,
the filesystem, and the iteration counter (equal to the number of agent
invocations so far, since the counter is incremented exactly once per
invocation at the top of the body). -/
structure LoopState where
  history : List Turn
  changes : List ChangeRec
  fs : Fs
  iteration : Nat

/-- The JSON body returned from the `complete` handler. -/
structure CompleteResponse where
  success : Bool
  summary : Option JsVal
  changes : List ChangeRec
  git : Option GitResult
  netlifyUrl : Option String

/-- The JSON body returned when the `while` loop finishes without a
`complete` action (by exhausting the budget or by `break`). -/
structure MaxIterResponse where
  success : Bool
  message : String
  changes : List ChangeRec
deriving DecidableEq, Repr

/-- Result of one execution of the loop body: continue iterating, `break`
out of the loop, return the completion response (with the git trace when
the publish pipeline was invoked), or throw to the endpoint's catch-all
(500). -/
inductive StepRes where
  | next (st : LoopState)
  | brk (st : LoopState)
  | done (resp : CompleteResponse) (gitTrace : Option (List String)) (st : LoopState)
  | fatal (e : String) (st : LoopState)

/-- One execution of the `while` body of the `/code` endpoint: charge the
iteration, invoke the agent on the current history, decode, dispatch. -/
def iterate (cfg : LoopConfig) (workspaceDir : String) (st₀ : LoopState) :
    StepRes :=
  let st := { st₀ with iteration := st₀.iteration + 1 }
  let content := cfg.agent st₀.history
  match extractAction content with
  | none =>
    .next { st with history :=
      st.history ++ [⟨.assistant, content⟩, ⟨.user, parseRetryMsg⟩] }
  | some action =>
    if jsTruthy action = false then .brk st
    else if jsTruthyOpt (jsGetField action "action") = false then .brk st
    else
      match jsGetField action "action" with
      | some (.str "complete") =>
        if cfg.skipGit = false ∧ 0 < st.changes.length then
          let gitRun :=
            gitCommitAndPushToStaging cfg.exec cfg.prompt st.changes cfg.forceGit
          .done
            { success := true
              summary := jsGetField action "summary"
              changes := st.changes
              git := some gitRun.1
              netlifyUrl :=
                if gitRun.1.success then cfg.netlifyStagingUrl else none }
            (some gitRun.2) st
        else
          .done
            { success := true
              summary := jsGetField action "summary"
              changes := st.changes
              git := none
              netlifyUrl := none }
            none st
      | some (.str "read_file") =>
        let fileV := jsGetField action "file"
        match fileV with
        | some (.str f) =>
          (match readFile st.fs f workspaceDir with
           | none =>
             .next { st with history :=
               st.history ++ [⟨.assistant, content⟩, ⟨.user, readNotFoundMsg fileV⟩] }
           | some fileContent =>
             .next { st with history :=
               st.history ++
                 [⟨.assistant, content⟩, ⟨.user, readContentMsg f fileContent⟩] })
        | _ =>
          .next { st with history :=
            st.history ++ [⟨.assistant, content⟩, ⟨.user, readNotFoundMsg fileV⟩] }
      | some (.str "write_file") =>
        (match jsGetField action "file", jsGetField action "content" with
         | some (.str f), some (.str c) =>
           .next { st with
             fs := writeFile st.fs f c workspaceDir
             changes := st.changes ++ [⟨f, "modified"⟩]
             history :=
               st.history ++ [⟨.assistant, content⟩, ⟨.user, writeOkMsg f⟩] }
         | _, _ => .fatal writeTypeErrMsg st)
      | _ =>
        .next { st with history :=
          st.history ++ [⟨.assistant, content⟩, ⟨.user, unknownActionMsg⟩] }

/-- The terminal outcome of a session, with the loop's final state (whose
`iteration` field is the number of agent invocations performed). -/
inductive SessionOutcome where
  | completed (resp : CompleteResponse) (gitTrace : Option (List String))
      (finalState : LoopState)
  | maxIter (resp : MaxIterResponse) (finalState : LoopState)
  | serverError (e : String) (finalState : LoopState)

/-- The response sent after the `while` loop: `success: true`,
`message: 'Max iterations reached'`, and the accumulated change set. -/
def maxIterResponse (st : LoopState) : MaxIterResponse :=
  { success := true, message := "Max iterations reached", changes := st.changes }

/-- The `while (iteration < maxIterations)` loop, with fuel equal to the
number of budget units left (`maxIterations - iteration`). -/
def loopAux (cfg : LoopConfig) (workspaceDir : String) :
    Nat → LoopState → SessionOutcome
  | 0, st => .maxIter (maxIterResponse st) st
  | fuel + 1, st =>
    match iterate cfg workspaceDir st with
    | .next st' => loopAux cfg workspaceDir fuel st'
    | .brk st' => .maxIter (maxIterResponse st') st'
    | .done r tr st' => .completed r tr st'
    | .fatal e st' => .serverError e st'

/-- The iteration ceiling (`let maxIterations = 15`). -/
def maxIterations : Nat := 15

/-- The state the loop starts from: the single seed turn (system framing
plus user request), no changes, iteration zero. -/
def initialState (fs : Fs) (fileTree userPrompt : String) : LoopState :=
  { history :=
      [⟨.user, mkSystemPrompt fileTree ++ "\n\nUSER REQUEST: " ++ userPrompt⟩]
    changes := []
    fs := fs
    iteration := 0 }

/-- One whole session of the `/code` endpoint's action loop (the endpoint
computes `fileTree` by `getFileTree` over the workspace listing before
seeding the loop). -/
def runSession (cfg : LoopConfig) (workspaceDir : String) (fs : Fs)
    (fileTree : String) : SessionOutcome :=
  loopAux cfg workspaceDir maxIterations (initialState fs fileTree cfg.prompt)

/-- Final loop state of an outcome. -/
def SessionOutcome.lastState : SessionOutcome → LoopState
  | .completed _ _ st => st
  | .maxIter _ st => st
  | .serverError _ st => st

/-- Number of agent invocations a session performed. -/
def SessionOutcome.agentCalls (o : SessionOutcome) : Nat :=
  o.lastState.iteration

/-- Length of the conversation history at the end of the session. -/
def SessionOutcome.historyLength (o : SessionOutcome) : Nat :=
  o.lastState.history.length

/-- The max-iterations response of an outcome, when that is how it ended. -/
def SessionOutcome.maxIterResp : SessionOutcome → Option MaxIterResponse
  | .maxIter r _ => some r
  | _ => none

/-- Does `n` occur strictly inside entry `e` (i.e. in the subtree of a
directory entry, not as its own name)? -/
def EntryDescends : FsEntry → String → Prop
  | .file _, _ => False
  | .dir _ children, n => Listed children n

/-- Segments that survive normalization when no `..` is involved: the
non-empty, non-`.` ones, in order. -/
def cleanSegs (segs : List (List Char)) : List (List Char) :=
  segs.filter (fun s => !skipSeg s)

/-- The empty filesystem. -/
def emptyFs : Fs := fun _ => none

/-- A filesystem holding one file directly beside (not inside) the
workspace root. -/
def secretFs : Fs :=
  fun p => if p = "secret.txt" then some "TOP SECRET" else none

/-- An agent reply whose fenced block holds valid JSON with no `action`
discriminator at all. -/
def replyNoDiscriminator : String := "```json\n\x7b\"foo\": 1\x7d\n```"

/-- An agent reply containing no decodable JSON whatsoever. -/
def replyNoise : String := "Let me think about that."

/-- An agent reply completing the session via a fenced JSON block. -/
def replyComplete : String :=
  "```json\n\x7b\"action\": \"complete\", \"summary\": \"done\"\x7d\n```"

/-- The decoded value of `replyComplete`. -/
def completeActionVal : JsVal :=
  .obj [("action", .str "complete"), ("summary", .str "done")]

/-- An execution oracle that rejects every command (no git repository: even
`git status` fails). -/
def envNotGit : ExecEnv :=
  fun _ =>
    .error "fatal: not a git repository (or any of the parent directories): .git"

/-- An execution oracle for a clean working tree: status succeeds with
whitespace-only output. -/
def envCleanTree : ExecEnv :=
  fun c => if c = statusCmd then .ok "  \n" else .error "unexpected command"

/-- The push-rejection message used in the classification scenarios. -/
def pushRejMsg : String :=
  "Command failed: git push origin staging\nerror: failed to push some refs to \x27origin\x27"

/-- An execution oracle where everything succeeds except the pre-push pull
(no remote staging branch yet) and the final push (rejected). -/
def envPushRej : ExecEnv :=
  fun c =>
    if c = statusCmd then .ok " M a.js\n"
    else if c = "git checkout staging" then .ok ""
    else if c = "git pull origin staging" then
      .error "fatal: couldn\x27t find remote ref staging"
    else if c = "git add ." then .ok ""
    else if c = commitCmd "add feature" then .ok ""
    else .error pushRejMsg

/-- A one-element change set for the pipeline scenarios. -/
def sampleChanges : List ChangeRec := [⟨"a.js", "modified"⟩]

/-- Session configuration whose agent always replies `replyNoDiscriminator`
(the break scenario). -/
def cfgBreak : LoopConfig :=
  { agent := fun _ => replyNoDiscriminator
    exec := envNotGit
    skipGit := false
    forceGit := false
    prompt := "please add a feature"
    netlifyStagingUrl := none }

/-- Session configuration whose agent always replies unparseable prose. -/
def cfgNoise : LoopConfig := { cfgBreak with agent := fun _ => replyNoise }

/-- Session configuration whose agent immediately completes; publish is not
skipped and force is requested, to exercise flag-independence. -/
def cfgComplete : LoopConfig :=
  { cfgBreak with agent := fun _ => replyComplete, forceGit := true }

/-- An agent reply whose decoded action names an unknown action. -/
def replyUnknown : String := "\x7b\"action\": \"delete_file\", \"file\": \"a.js\"\x7d"

/-- A sample workspace listing with hidden entries and `node_modules` at
two depths. -/
def sampleTree : List FsEntry :=
  [.dir "src" [.file "app.js", .dir "node_modules" [.file "x.js"], .file ".env"],
   .file "README.md",
   .dir ".git" [.file "HEAD"]]

/-- C8: for every path and every content string, a successful WriteFile to
that path followed immediately by a ReadFile of the same path (with the
same workspace root) returns exactly the written content. -/
theorem write_then_read_roundtrip (fs : Fs) (filePath content workspaceDir : String) :
    readFile (writeFile fs filePath content workspaceDir) filePath workspaceDir =
      some content := by
  simp [readFile, writeFile]

/-- C5: on a working tree whose status query reports no modifications, the
publish pipeline returns `success=false` with message `No changes detected`
and attempts no further git command. -/
theorem clean_tree_is_noop (env : ExecEnv) (prompt : String)
    (changes : List ChangeRec) (force : Bool) (status : String)
    (hst : env statusCmd = .ok status) (htrim : jsTrim status = "") :
    gitCommitAndPushToStaging env prompt changes force =
      (noChangesResult, [statusCmd]) ∧
    noChangesResult.success = false ∧
    noChangesResult.message = some "No changes detected" := by
  refine ⟨?_, rfl, rfl⟩
  simp [gitCommitAndPushToStaging, gitTryBody, hst, htrim]

/-- Witness for C5: a concrete oracle whose status output is whitespace
only; the pipeline stops after the status query. -/
theorem clean_tree_is_noop_witness :
    envCleanTree statusCmd = .ok "  \n" ∧ jsTrim "  \n" = "" ∧
    gitCommitAndPushToStaging envCleanTree "p" [] false =
      (noChangesResult, [statusCmd]) :=
  ⟨rfl, by decide,
    (clean_tree_is_noop envCleanTree "p" [] false "  \n" rfl (by decide)).1⟩

/-- C4: whenever a git step fails (the try body escapes with an error), the
returned `canForcePush` is exactly the spec's case-insensitive phrasing
match on the error message. -/
theorem gitError_canForcePush_matches_spec (env : ExecEnv) (prompt : String)
    (changes : List ChangeRec) (force : Bool) (e : String) (trace : List String)
    (h : gitTryBody env prompt changes force = (.error e, trace)) :
    (gitCommitAndPushToStaging env prompt changes force).1.canForcePush =
      some (specCanForcePush e) := by
  unfold gitCommitAndPushToStaging
  rw [h]
  rfl

/-- Witness for C4: a push rejection whose message contains `failed to push
some refs` classifies as force-pushable. -/
theorem gitError_canForcePush_matches_spec_witness :
    specCanForcePush pushRejMsg = true ∧
    (gitCommitAndPushToStaging envPushRej "add feature" sampleChanges false).1.canForcePush =
      some (specCanForcePush pushRejMsg) :=
  ⟨by decide,
    gitError_canForcePush_matches_spec envPushRej "add feature" sampleChanges
      false pushRejMsg _ rfl⟩

/-- C10: every error escaping the pipeline's try body is caught and turned
into a result object with `success=false`, the underlying message,
`gitError=true` and a `canForcePush` classification; nothing propagates to
the caller (the pipeline is a total function into `GitResult`). -/
theorem pipeline_catches_all_errors (env : ExecEnv) (prompt : String)
    (changes : List ChangeRec) (force : Bool) (e : String) (trace : List String)
    (h : gitTryBody env prompt changes force = (.error e, trace)) :
    gitCommitAndPushToStaging env prompt changes force = (gitFailResult e, trace) ∧
    (gitFailResult e).success = false ∧
    (gitFailResult e).error = some e ∧
    (gitFailResult e).gitError = some true ∧
    (gitFailResult e).canForcePush = some (isNonFastForward e) := by
  refine ⟨?_, rfl, rfl, rfl, rfl⟩
  unfold gitCommitAndPushToStaging
  rw [h]

/-- Witness for C10: a workspace that is not a git repository, so that even
the initial status query fails; the failure is returned, not raised. -/
theorem pipeline_catches_all_errors_witness :
    gitTryBody envNotGit "p" [] false =
      (.error "fatal: not a git repository (or any of the parent directories): .git",
        [statusCmd]) ∧
    gitCommitAndPushToStaging envNotGit "p" [] false =
      (gitFailResult
        "fatal: not a git repository (or any of the parent directories): .git",
        [statusCmd]) :=
  ⟨rfl, (pipeline_catches_all_errors envNotGit "p" [] false _ _ rfl).1⟩

/-- C7: once the pipeline is past the status and checkout steps, the
pre-push pull is attempted exactly when `force` is not set, any outcome of
that pull still leads to staging and committing, and the push issued is the
force variant exactly when `force` is set. -/
theorem pull_exactly_when_not_force (env : ExecEnv) (prompt : String)
    (changes : List ChangeRec) (force : Bool) (status out₁ out₂ out₃ : String)
    (hst : env statusCmd = .ok status) (hne : jsTrim status ≠ "")
    (hco : env "git checkout staging" = .ok out₁)
    (hadd : env "git add ." = .ok out₂)
    (hcm : env (commitCmd prompt) = .ok out₃) :
    (gitCommitAndPushToStaging env prompt changes force).2 =
      statusCmd :: "git checkout staging" ::
        ((if force then [] else ["git pull origin staging"]) ++
          ["git add .", commitCmd prompt,
            if force then "git push --force origin staging"
            else "git push origin staging"]) := by
  cases force with
  | false =>
    rcases hp : env "git push origin staging" with e | o <;>
      simp [gitCommitAndPushToStaging, gitTryBody, hst, hne, hco, hadd, hcm, hp]
  | true =>
    rcases hp : env "git push --force origin staging" with e | o <;>
      simp [gitCommitAndPushToStaging, gitTryBody, hst, hne, hco, hadd, hcm, hp]

/-- Witness for C7: with the concrete oracle whose pull step fails, the
non-force run still attempts pull, add, commit and a plain push; the force
run skips the pull and issues a force push. -/
theorem pull_exactly_when_not_force_witness :
    envPushRej "git pull origin staging" =
      .error "fatal: couldn\x27t find remote ref staging" ∧
    (gitCommitAndPushToStaging envPushRej "add feature" sampleChanges false).2 =
      [statusCmd, "git checkout staging", "git pull origin staging", "git add .",
        commitCmd "add feature", "git push origin staging"] ∧
    (gitCommitAndPushToStaging envPushRej "add feature" sampleChanges true).2 =
      [statusCmd, "git checkout staging", "git add .", commitCmd "add feature",
        "git push --force origin staging"] := by
  refine ⟨rfl, ?_, ?_⟩
  · have h := pull_exactly_when_not_force envPushRej "add feature" sampleChanges
      false " M a.js\n" "" "" "" rfl (by decide) rfl rfl rfl
    simpa using h
  · have h := pull_exactly_when_not_force envPushRej "add feature" sampleChanges
      true " M a.js\n" "" "" "" rfl (by decide) rfl rfl rfl
    simpa using h

theorem splitSegs_ne_nil (l : List Char) : splitSegs l ≠ [] := by
  cases l with
  | nil => simp [splitSegs]
  | cons c t =>
    by_cases h : c = '/'
    · simp [splitSegs, h]
    · simp only [splitSegs, if_neg h]
      rcases hs : splitSegs t with _ | ⟨s, ss⟩ <;> simp

theorem splitSegs_append (a b : List Char) :
    splitSegs (a ++ '/' :: b) = splitSegs a ++ splitSegs b := by
  induction a with
  | nil => simp [splitSegs]
  | cons c t ih =>
    by_cases h : c = '/'
    · simp [splitSegs, h, ih]
    · simp only [List.cons_append, splitSegs, if_neg h, List.append_eq]
      rw [ih]
      rcases hs : splitSegs t with _ | ⟨s, ss⟩
      · exact absurd hs (splitSegs_ne_nil t)
      · simp [hs]

theorem foldl_normStep_no_dd (flag : Bool) :
    ∀ (segs : List (List Char)), (∀ s ∈ segs, s ≠ ['.', '.']) →
      ∀ stack, segs.foldl (normStep flag) stack = (cleanSegs segs).reverse ++ stack := by
  intro segs
  induction segs with
  | nil => intro _ stack; simp [cleanSegs]
  | cons s rest ih =>
    intro h stack
    have hs : s ≠ ['.', '.'] := h s (by simp)
    have hrest : ∀ x ∈ rest, x ≠ ['.', '.'] := fun x hx => h x (by simp [hx])
    simp only [List.foldl_cons]
    by_cases h1 : skipSeg s = true
    · rw [show normStep flag stack s = stack by simp [normStep, h1]]
      rw [ih hrest stack]
      simp [cleanSegs, h1]
    · rw [show normStep flag stack s = s :: stack by simp [normStep, h1, hs]]
      rw [ih hrest (s :: stack)]
      simp only [cleanSegs] at *
      rw [List.filter_cons_of_pos (by simp [h1])]
      simp

theorem normSegs_append_no_dd (flag : Bool) (s₁ s₂ : List (List Char))
    (h : ∀ s ∈ s₂, s ≠ ['.', '.']) :
    normSegs flag (s₁ ++ s₂) = normSegs flag s₁ ++ cleanSegs s₂ := by
  unfold normSegs
  rw [List.foldl_append, foldl_normStep_no_dd flag s₂ h]
  simp

theorem toList_concat_slash (ws p : String) :
    (ws ++ "/" ++ p).toList = ws.toList ++ '/' :: p.toList := by
  simp [String.toList, String.data_append]

theorem isAbsPath_concat (ws p : String) (h : ws ≠ "") :
    isAbsPath (ws ++ "/" ++ p) = isAbsPath ws := by
  have hd : ws.toList ≠ [] := by
    intro hnil
    apply h
    cases ws with
    | mk data =>
      simp [String.toList] at hnil
      simp [hnil]
  unfold isAbsPath
  rw [toList_concat_slash, List.head?_append_of_ne_nil _ hd]

/-- C3 (amended): every action path is resolved by joining it to the
workspace root with `path.join`; a path none of whose segments is `..`
always resolves to a location within the root (the root's normalized
segments are a prefix of the resolution's).  Paths with `..` segments can
escape — see the counterexample. -/
theorem resolve_within_root_no_dotdot (workspaceDir filePath : String)
    (hws : workspaceDir ≠ "") (hfp : filePath ≠ "")
    (hnd : ∀ seg ∈ splitSegs filePath.toList, seg ≠ ['.', '.']) :
    pathJoin workspaceDir filePath =
      normalizePath (workspaceDir ++ "/" ++ filePath) ∧
    resolveStack workspaceDir filePath =
      pathStack workspaceDir ++ cleanSegs (splitSegs filePath.toList) ∧
    pathStack workspaceDir <+: resolveStack workspaceDir filePath := by
  have h2 : resolveStack workspaceDir filePath =
      pathStack workspaceDir ++ cleanSegs (splitSegs filePath.toList) := by
    unfold resolveStack pathStack
    rw [toList_concat_slash, splitSegs_append,
      normSegs_append_no_dd _ _ _ hnd, isAbsPath_concat _ _ hws]
  refine ⟨by simp [pathJoin, hws, hfp], h2, ?_⟩
  rw [h2]
  exact List.prefix_append _ _

/-- Witness for C3 (amended): a concrete relative path without `..` stays
inside the workspace root. -/
theorem resolve_within_root_no_dotdot_witness :
    pathJoin "./workspace" "src/app.js" = "workspace/src/app.js" ∧
    (∀ seg ∈ splitSegs "src/app.js".toList, seg ≠ ['.', '.']) ∧
    pathStack "./workspace" <+: resolveStack "./workspace" "src/app.js" :=
  ⟨by decide, by decide,
    (resolve_within_root_no_dotdot "./workspace" "src/app.js" (by decide)
      (by decide) (by decide)).2.2⟩

/-- C3 counterexample: the claim as stated is false — a `ReadFile` path
containing a `..` segment resolves outside the workspace root and reaches a
file beside it. -/
theorem path_escape_cex :
    pathJoin "./workspace" "../secret.txt" = "secret.txt" ∧
    (pathStack "./workspace").isPrefixOf
      (pathStack (pathJoin "./workspace" "../secret.txt")) = false ∧
    readFile secretFs "../secret.txt" "./workspace" = some "TOP SECRET" :=
  ⟨by decide, by decide, by decide⟩

/-- C6: a session that completes while the accumulated change set is empty
does not invoke the publish pipeline and returns a null publish result,
regardless of the caller's skip-publish and force-publish flags (the
configuration is arbitrary here, so both flags are). -/
theorem empty_changes_skip_publish (cfg : LoopConfig) (workspaceDir : String)
    (st : LoopState) (action : JsVal)
    (hact : extractAction (cfg.agent st.history) = some action)
    (htr : jsTruthy action = true)
    (hdisc : jsGetField action "action" = some (.str "complete"))
    (hch : st.changes = []) :
    iterate cfg workspaceDir st =
      .done { success := true, summary := jsGetField action "summary",
              changes := [], git := none, netlifyUrl := none } none
        { st with iteration := st.iteration + 1 } := by
  have htruthyC : jsTruthyOpt (some (JsVal.str "complete")) = true := by decide
  simp [iterate, hact, htr, hdisc, hch, htruthyC]

/-- Witness for C6: a concrete session whose agent completes immediately
(publish not skipped, force requested); the change set is empty and the
publish result is null. -/
theorem empty_changes_skip_publish_witness :
    extractAction replyComplete = some completeActionVal ∧
    jsGetField completeActionVal "action" = some (.str "complete") ∧
    (initialState emptyFs "" "please add a feature").changes = [] ∧
    iterate cfgComplete "./workspace" (initialState emptyFs "" "please add a feature") =
      .done { success := true,
              summary := jsGetField completeActionVal "summary",
              changes := [], git := none, netlifyUrl := none } none
        { initialState emptyFs "" "please add a feature" with
          iteration := (initialState emptyFs "" "please add a feature").iteration + 1 } :=
  ⟨rfl, rfl, rfl,
    empty_changes_skip_publish cfgComplete "./workspace"
      (initialState emptyFs "" "please add a feature") completeActionVal rfl rfl rfl rfl⟩

/-- C1 (amended): for an agent reply from which no JSON decodes (no
candidate substring, or `JSON.parse` failing) and for a decoded truthy
action object whose truthy `action` field names an unknown action, the
session does not end: the loop appends the raw reply as an agent turn plus
the matching corrective observation turn and returns to iterating, leaving
the filesystem, the change set and the git state untouched and consuming no
budget beyond the iteration already charged.  (A reply that decodes to JSON
without a truthy `action` field instead breaks out of the loop — see the
counterexample.) -/
theorem malformed_reply_recovers (cfg : LoopConfig) (workspaceDir : String)
    (st : LoopState)
    (h : extractAction (cfg.agent st.history) = none ∨
      (∃ action a, extractAction (cfg.agent st.history) = some action ∧
        jsTruthy action = true ∧ jsGetField action "action" = some a ∧
        jsTruthy a = true ∧ isKnownAction a = false)) :
    iterate cfg workspaceDir st =
      .next { st with
        iteration := st.iteration + 1
        history := st.history ++
          [⟨.assistant, cfg.agent st.history⟩,
            ⟨.user, if (extractAction (cfg.agent st.history)).isNone
                    then parseRetryMsg else unknownActionMsg⟩] } := by
  rcases h with hnone | ⟨action, a, hact, htr, hget, hatr, hunk⟩
  · simp [iterate, hnone]
  · have hopt : jsTruthyOpt (jsGetField action "action") = true := by
      rw [hget]; exact hatr
    simp only [iterate, hact, htr, hget, hopt, Option.isNone_some,
      Bool.true_eq_false, if_false, Bool.false_eq_true]
    cases a with
    | str s => split <;> simp_all [isKnownAction]
    | null => simp_all [jsTruthy]
    | bool b => split <;> simp_all
    | num lex => split <;> simp_all
    | arr elts => split <;> simp_all
    | obj fields => split <;> simp_all

/-- Witness for C1 (amended): a concrete unparseable reply makes one loop
iteration append the reply and the parse-retry observation and continue. -/
theorem malformed_reply_recovers_witness :
    extractAction replyNoise = none ∧
    iterate cfgNoise "./workspace" (initialState emptyFs "" "please add a feature") =
      .next { initialState emptyFs "" "please add a feature" with
        iteration := (initialState emptyFs "" "please add a feature").iteration + 1
        history := (initialState emptyFs "" "please add a feature").history ++
          [⟨.assistant,
              cfgNoise.agent (initialState emptyFs "" "please add a feature").history⟩,
            ⟨.user, if (extractAction (cfgNoise.agent
                  (initialState emptyFs "" "please add a feature").history)).isNone
                then parseRetryMsg else unknownActionMsg⟩] } :=
  ⟨rfl,
    malformed_reply_recovers cfgNoise "./workspace"
      (initialState emptyFs "" "please add a feature") (Or.inl rfl)⟩

/-- C1 counterexample: the claim as stated is false for a reply whose
fenced block decodes to JSON without an `action` field — the loop breaks
instead of continuing: the session ends after a single agent invocation
with the max-iterations response, and no agent or corrective turn is
appended (the history keeps only the seed turn). -/
theorem missing_discriminator_ends_session_cex :
    (runSession cfgBreak "./workspace" emptyFs "").maxIterResp =
      some { success := true, message := "Max iterations reached", changes := [] } ∧
    (runSession cfgBreak "./workspace" emptyFs "").agentCalls = 1 ∧
    (runSession cfgBreak "./workspace" emptyFs "").historyLength = 1 :=
  ⟨rfl, rfl, rfl⟩

theorem loopAux_all_unparsed (cfg : LoopConfig) (workspaceDir : String)
    (h : ∀ hist, extractAction (cfg.agent hist) = none) :
    ∀ (fuel : Nat) (st : LoopState), ∃ st',
      loopAux cfg workspaceDir fuel st = .maxIter (maxIterResponse st') st' ∧
      st'.iteration = st.iteration + fuel ∧ st'.changes = st.changes := by
  intro fuel
  induction fuel with
  | zero => intro st; exact ⟨st, rfl, rfl, rfl⟩
  | succ n ih =>
    intro st
    have hit : iterate cfg workspaceDir st = .next { st with
        iteration := st.iteration + 1
        history := st.history ++
          [⟨.assistant, cfg.agent st.history⟩, ⟨.user, parseRetryMsg⟩] } := by
      simp [iterate, h st.history]
    obtain ⟨st', h1, h2, h3⟩ := ih { st with
      iteration := st.iteration + 1
      history := st.history ++
        [⟨.assistant, cfg.agent st.history⟩, ⟨.user, parseRetryMsg⟩] }
    refine ⟨st', ?_, ?_, ?_⟩
    · simp only [loopAux]
      rw [hit]
      exact h1
    · simp only at h2
      omega
    · simpa using h3

/-- C2: a session whose agent only ever produces replies from which no
action decodes performs exactly 15 agent invocations, then terminates with
the max-iterations outcome, reported as success (`success=true`, message
`Max iterations reached`) carrying the empty change set. -/
theorem exhaustion_after_fifteen (cfg : LoopConfig) (workspaceDir : String)
    (fs : Fs) (fileTree : String)
    (h : ∀ hist, extractAction (cfg.agent hist) = none) :
    (runSession cfg workspaceDir fs fileTree).maxIterResp =
      some { success := true, message := "Max iterations reached", changes := [] } ∧
    (runSession cfg workspaceDir fs fileTree).agentCalls = 15 := by
  obtain ⟨st', h1, h2, h3⟩ :=
    loopAux_all_unparsed cfg workspaceDir h maxIterations
      (initialState fs fileTree cfg.prompt)
  unfold runSession
  rw [h1]
  constructor
  · simp only [SessionOutcome.maxIterResp, maxIterResponse]
    rw [h3]
    simp [initialState]
  · simp only [SessionOutcome.agentCalls, SessionOutcome.lastState]
    rw [h2]
    simp [initialState, maxIterations]

/-- Witness for C2: the concrete always-prose agent exhausts the budget at
exactly 15 invocations with an empty change set. -/
theorem exhaustion_after_fifteen_witness :
    extractAction replyNoise = none ∧
    (runSession cfgNoise "./workspace" emptyFs "").maxIterResp =
      some { success := true, message := "Max iterations reached", changes := [] } ∧
    (runSession cfgNoise "./workspace" emptyFs "").agentCalls = 15 :=
  ⟨rfl,
    (exhaustion_after_fifteen cfgNoise "./workspace" emptyFs "" (fun _ => rfl)).1,
    (exhaustion_after_fifteen cfgNoise "./workspace" emptyFs "" (fun _ => rfl)).2⟩

theorem joinLines_append (a b : List (String × String)) :
    joinLines (a ++ b) = joinLines a ++ joinLines b := by
  induction a with
  | nil => simp [joinLines]
  | cons p ps ih => simp [joinLines, ih, String.append_assoc]

mutual

theorem getFileTree_eq_joinLines :
    ∀ (es : List FsEntry) (pre : String),
      getFileTree es pre = joinLines (treeLines es pre)
  | [], _ => rfl
  | e :: rest, pre => by
    by_cases h : skipName (entryName e) = true
    · simp [getFileTree, treeLines, h, getFileTree_eq_joinLines rest pre]
    · simp [getFileTree, treeLines, h, getFileTree_eq_joinLines rest pre,
        renderEntry_eq_joinLines e pre, joinLines_append]

theorem renderEntry_eq_joinLines :
    ∀ (e : FsEntry) (pre : String),
      renderEntry e pre = joinLines (entryLines e pre)
  | .file n, pre => by simp [renderEntry, entryLines, joinLines]
  | .dir n children, pre => by
    simp [renderEntry, entryLines, joinLines,
      getFileTree_eq_joinLines children (pre ++ "  ")]

end

mutual

theorem mem_treeLines_iff_listed :
    ∀ (es : List FsEntry) (pre : String) (n : String),
      n ∈ (treeLines es pre).map Prod.fst ↔ Listed es n
  | [], pre, n => by
    constructor
    · intro h
      simp [treeLines] at h
    · intro h
      cases h
  | e :: rest, pre, n => by
    by_cases h : skipName (entryName e) = true
    · rw [show treeLines (e :: rest) pre = treeLines rest pre by
        simp [treeLines, h]]
      rw [mem_treeLines_iff_listed rest pre n]
      constructor
      · exact fun hl => Listed.later e rest n hl
      · intro hl
        cases hl with
        | head e' rest' hskip => simp_all
        | inDir n₀ children rest' m hskip hm => simp_all [entryName]
        | later e' rest' m hl' => exact hl'
    · rw [show treeLines (e :: rest) pre = entryLines e pre ++ treeLines rest pre by
        simp [treeLines, h]]
      rw [List.map_append, List.mem_append]
      rw [mem_entryLines_iff e pre n, mem_treeLines_iff_listed rest pre n]
      constructor
      · rintro ((heq | hdesc) | hrest)
        · rw [heq]
          exact Listed.head e rest (by simpa using h)
        · cases e with
          | file n₀ => cases hdesc
          | dir n₀ children =>
            exact Listed.inDir n₀ children rest n
              (by simpa [entryName] using h) hdesc
        · exact Listed.later e rest n hrest
      · intro hl
        cases hl with
        | head e' rest' hskip => exact Or.inl (Or.inl rfl)
        | inDir n₀ children rest' m hskip hm => exact Or.inl (Or.inr hm)
        | later e' rest' m hl' => exact Or.inr hl'

theorem mem_entryLines_iff :
    ∀ (e : FsEntry) (pre : String) (n : String),
      n ∈ (entryLines e pre).map Prod.fst ↔
        (n = entryName e ∨ EntryDescends e n)
  | .file n₀, pre, n => by simp [entryLines, entryName, EntryDescends]
  | .dir n₀ children, pre, n => by
    simp only [entryLines, List.map_cons, List.mem_cons, entryName,
      EntryDescends]
    rw [mem_treeLines_iff_listed children (pre ++ "  ") n]

end

theorem listed_not_skipped (es : List FsEntry) (n : String) (h : Listed es n) :
    skipName n = false := by
  induction h with
  | head e rest hskip => exact hskip
  | inDir n₀ children rest m hskip hm ih => exact ih
  | later e rest m hl ih => exact ih

/-- C9: the repository snapshot (the recursive rendering `getFileTree`,
whose lines are enumerated by `treeLines`) lists a name if and only if an
entry carrying it is reachable without crossing a dot-prefixed or
`node_modules` entry; in particular no listed name begins with `.` and none
is `node_modules`, at any depth, while every other entry of the tree
appears. -/
theorem snapshot_excludes_hidden_and_node_modules (es : List FsEntry)
    (pre : String) :
    getFileTree es pre = joinLines (treeLines es pre) ∧
    (∀ n, n ∈ (treeLines es pre).map Prod.fst ↔ Listed es n) ∧
    (∀ n, n ∈ (treeLines es pre).map Prod.fst →
      beginsWithDot n = false ∧ n ≠ "node_modules") := by
  refine ⟨getFileTree_eq_joinLines es pre,
    fun n => mem_treeLines_iff_listed es pre n, ?_⟩
  intro n hn
  have hl := (mem_treeLines_iff_listed es pre n).1 hn
  have hs := listed_not_skipped es n hl
  simp only [skipName, Bool.or_eq_false_iff, beq_eq_false_iff_ne] at hs
  exact hs

/-- Witness for C9: on a sample tree, the listed names are exactly the
non-hidden, non-`node_modules` entries, and the rendered snapshot is the
concatenation of their lines. -/
theorem snapshot_excludes_hidden_and_node_modules_witness :
    (treeLines sampleTree "").map Prod.fst = ["src", "app.js", "README.md"] ∧
    getFileTree sampleTree "" = "📁 src/\n  📄 app.js\n📄 README.md\n" ∧
    getFileTree sampleTree "" = joinLines (treeLines sampleTree "") :=
  ⟨rfl, rfl, (snapshot_excludes_hidden_and_node_modules sampleTree "").1⟩
